import Mathlib

/-!
# Verification of the qe-tools OCI artifact retrieval and extraction subsystem

A shallow embedding, in Lean 4, of the core of the `qe-tools` repository:
tag fetching (`pkg/oci` `FetchTags`), repository orchestration
(`ProcessRepositories` / `processRepository` / `ProcessTag`), blob handling
(`processBlob` / `isTarGzBlob` / `extractTarGz` / `handleTarEntry`) and the
artifact scanner (`processExtractedFiles`).

External collaborators (the Go standard library and network/filesystem
effects) are modelled explicitly:
* `time.Parse` with the RFC1123 layout is an abstract function
  `String → Except String Time`; Go returns the zero `time.Time` alongside an
  error, which call sites either check or discard.
* HTTP page requests (`sendTagsRequest`) are an abstract function
  `String → Except String TagResponse` from the request URL to the decoded
  response or the wrapped transport/decode error.
* The filesystem seen by the tar extractor is a pair of a directory set and
  an association list from paths (component lists) to file contents.
* Durations and context deadlines are modelled by explicit elapsed-time
  accounting: each step of `ProcessTag` has a duration and an optional
  failure, and only the step that receives the timeout context
  (the `oras.Copy` call inside `copyTagManifest`) observes the deadline.
-/

set_option autoImplicit false

namespace QeTools

/-- Decidable equality for `Except`, needed to `decide` closed equations about
results of the embedded fallible operations. -/
instance instDecEqExcept {ε α : Type} [DecidableEq ε] [DecidableEq α] :
    DecidableEq (Except ε α) := fun x y =>
  match x, y with
  | .ok a, .ok b =>
    match decEq a b with
    | .isTrue h => .isTrue (by rw [h])
    | .isFalse h => .isFalse (fun hc => h (Except.ok.inj hc))
  | .error a, .error b =>
    match decEq a b with
    | .isTrue h => .isTrue (by rw [h])
    | .isFalse h => .isFalse (fun hc => h (Except.error.inj hc))
  | .ok _, .error _ => .isFalse (fun hc => Except.noConfusion hc)
  | .error _, .ok _ => .isFalse (fun hc => Except.noConfusion hc)

/-! ## Time model

Go's `time.Time` as far as this subsystem observes it: a calendar date (used
by `Format("2006-01-02")`) and a point on the absolute time line (used by
`time.Since`).  The zero `time.Time` is January 1 of year 1. -/

/-- The observable part of a Go `time.Time` value: the calendar date fields
and the absolute timestamp in seconds. -/
structure Time where
  year : Nat
  month : Nat
  day : Nat
  unix : Int
deriving DecidableEq

/-- The zero `time.Time`: January 1, year 1, UTC. -/
def zeroTime : Time := ⟨1, 1, 1, -62135596800⟩

/-- Two-digit zero-padded decimal rendering, as Go layout `01`/`02`. -/
def pad2 (n : Nat) : String :=
  if n < 10 then "0" ++ toString n else toString n

/-- Four-digit zero-padded decimal rendering, as Go layout `2006`. -/
def pad4 (n : Nat) : String :=
  if n < 10 then "000" ++ toString n
  else if n < 100 then "00" ++ toString n
  else if n < 1000 then "0" ++ toString n
  else toString n

/-- Go `t.Format("2006-01-02")`. -/
def Time.formatYMD (t : Time) : String :=
  pad4 t.year ++ "-" ++ pad2 t.month ++ "-" ++ pad2 t.day

/-! ## TagFetcher (`FetchTags`, `buildTagsURL`, `sendTagsRequest`)

From the tag-fetching file of `pkg/oci`.  The HTTP request itself
(`sendTagsRequest`) is the environment: a function from the request URL to
either the decoded `TagResponse` or the error `sendTagsRequest` returns
(transport failure, non-200 status, or JSON decode failure — all of which it
wraps into an error and returns immediately). -/

/-- `TagInfo` from the source: one tag of a repository. -/
structure TagInfo where
  name : String
  lastModified : String
  size : Int
deriving DecidableEq

/-- `TagResponse` from the source: the decoded JSON page of the tag-listing
API. -/
structure TagResponse where
  tags : List TagInfo
deriving DecidableEq

/-- `quayAPITagsURL` constant from the source. -/
def quayAPITagsURL : String := "https://quay.io/api/v1/repository/"

/-- `perPageTags` constant from the source: the fixed page size. -/
def perPageTags : Nat := 100

/-- `buildTagsURL` from the source: the tags API URL for a repository and
page. -/
def buildTagsURL (repo : String) (page : Nat) : String :=
  quayAPITagsURL ++ repo ++ "/tag/?limit=" ++ toString perPageTags ++
    "&page=" ++ toString page

/-- The `for` loop of `FetchTags`: starting at `page`, with the tags
accumulated so far, request pages until one returns zero tags.  `send` is the
environment standing for `sendTagsRequest`.  The Go loop has no bound; `fuel`
makes the recursion well-founded, and every theorem assumes enough fuel to
reach the terminating page. -/
def fetchTagsLoop (send : String → Except String TagResponse) (repo : String) :
    Nat → Nat → List TagInfo → Except String (List TagInfo)
  | 0, _, _ => .error "tag listing never reached an empty page"
  | fuel + 1, page, tags =>
    match send (buildTagsURL repo page) with
    | .error e => .error e
    | .ok response =>
      if response.tags.isEmpty then .ok tags
      else fetchTagsLoop send repo fuel (page + 1) (tags ++ response.tags)

/-- `FetchTags` from the source: paginate from page 1 with an empty
accumulator. -/
def FetchTags (send : String → Except String TagResponse) (repo : String)
    (fuel : Nat) : Except String (List TagInfo) :=
  fetchTagsLoop send repo fuel 1 []

theorem fetchTagsLoop_ok (send : String → Except String TagResponse)
    (repo : String) :
    ∀ (n : Nat) (ps : Nat → List TagInfo) (fuel page : Nat)
      (acc : List TagInfo),
      (∀ i, i < n →
        send (buildTagsURL repo (page + i)) = .ok ⟨ps i⟩ ∧ ps i ≠ []) →
      send (buildTagsURL repo (page + n)) = .ok ⟨[]⟩ →
      n < fuel →
      fetchTagsLoop send repo fuel page acc =
        .ok (acc ++ ((List.range n).map ps).flatten) := by
  intro n
  induction n with
  | zero =>
    intro ps fuel page acc _ hempty hfuel
    match fuel, hfuel with
    | f + 1, _ =>
      simp only [fetchTagsLoop]
      rw [show page + 0 = page from rfl] at hempty
      rw [hempty]
      simp
  | succ n ih =>
    intro ps fuel page acc h hempty hfuel
    match fuel, hfuel with
    | f + 1, hfuel =>
      obtain ⟨h0, hne0⟩ := h 0 (Nat.succ_pos n)
      rw [show page + 0 = page from rfl] at h0
      simp only [fetchTagsLoop]
      rw [h0]
      simp only [List.isEmpty_iff, hne0, if_false]
      have hrec := ih (fun i => ps (i + 1)) f (page + 1) (acc ++ ps 0)
        (fun i hi => by
          have := h (i + 1) (by omega)
          rwa [show page + (i + 1) = page + 1 + i by omega] at this)
        (by
          have := hempty
          rwa [show page + (n + 1) = page + 1 + n by omega] at this)
        (by omega)
      rw [hrec]
      rw [List.range_succ_eq_map]
      simp [List.map_map, Function.comp_def, List.append_assoc,
        Nat.succ_eq_add_one]

theorem fetchTagsLoop_error (send : String → Except String TagResponse)
    (repo : String) :
    ∀ (k : Nat) (ps : Nat → List TagInfo) (e : String) (fuel page : Nat)
      (acc : List TagInfo),
      (∀ i, i < k →
        send (buildTagsURL repo (page + i)) = .ok ⟨ps i⟩ ∧ ps i ≠ []) →
      send (buildTagsURL repo (page + k)) = .error e →
      k < fuel →
      fetchTagsLoop send repo fuel page acc = .error e := by
  intro k
  induction k with
  | zero =>
    intro ps e fuel page acc _ herr hfuel
    match fuel, hfuel with
    | f + 1, _ =>
      simp only [fetchTagsLoop]
      rw [show page + 0 = page from rfl] at herr
      rw [herr]
  | succ k ih =>
    intro ps e fuel page acc h herr hfuel
    match fuel, hfuel with
    | f + 1, hfuel =>
      obtain ⟨h0, hne0⟩ := h 0 (Nat.succ_pos k)
      rw [show page + 0 = page from rfl] at h0
      simp only [fetchTagsLoop]
      rw [h0]
      simp only [List.isEmpty_iff, hne0, if_false]
      exact ih (fun i => ps (i + 1)) e f (page + 1) (acc ++ ps 0)
        (fun i hi => by
          have := h (i + 1) (by omega)
          rwa [show page + (i + 1) = page + 1 + i by omega] at this)
        (by rwa [show page + (k + 1) = page + 1 + k by omega] at herr)
        (by omega)

/-- C2: For a sequence of tag-listing pages p0..pn where pn is the first page
with zero tags, FetchTags returns exactly the concatenation p0 ++ ... ++
p(n-1) in server order; any failure of a page request (network, status or
decode) makes the whole call return that error, with no partial list; and
the page size baked into every request URL is the fixed constant 100. -/
theorem C2_pagination :
    (∀ (send : String → Except String TagResponse) (repo : String) (n : Nat)
       (ps : Nat → List TagInfo) (fuel : Nat),
       (∀ i, i < n →
         send (buildTagsURL repo (i + 1)) = .ok ⟨ps i⟩ ∧ ps i ≠ []) →
       send (buildTagsURL repo (n + 1)) = .ok ⟨[]⟩ →
       n < fuel →
       FetchTags send repo fuel = .ok (((List.range n).map ps).flatten)) ∧
    (∀ (send : String → Except String TagResponse) (repo : String) (k : Nat)
       (ps : Nat → List TagInfo) (e : String) (fuel : Nat),
       (∀ i, i < k →
         send (buildTagsURL repo (i + 1)) = .ok ⟨ps i⟩ ∧ ps i ≠ []) →
       send (buildTagsURL repo (k + 1)) = .error e →
       k < fuel →
       FetchTags send repo fuel = .error e) ∧
    perPageTags = 100 := by
  refine ⟨?_, ?_, rfl⟩
  · intro send repo n ps fuel h hempty hfuel
    have := fetchTagsLoop_ok send repo n ps fuel 1 []
      (fun i hi => by rw [show 1 + i = i + 1 by omega]; exact h i hi)
      (by rwa [show 1 + n = n + 1 by omega]) hfuel
    simpa [FetchTags] using this
  · intro send repo k ps e fuel h herr hfuel
    have := fetchTagsLoop_error send repo k ps e fuel 1 []
      (fun i hi => by rw [show 1 + i = i + 1 by omega]; exact h i hi)
      (by rwa [show 1 + k = k + 1 by omega]) hfuel
    simpa [FetchTags] using this

/-- Three-page environment for exercising `FetchTags` at a concrete input:
page 1 holds one tag, page 2 holds two tags, page 3 is empty. -/
def sendPagesExample : String → Except String TagResponse := fun url =>
  if url = buildTagsURL "konflux/repo" 1 then
    .ok ⟨[⟨"t1", "d1", 5⟩]⟩
  else if url = buildTagsURL "konflux/repo" 2 then
    .ok ⟨[⟨"t2", "d2", 6⟩, ⟨"t3", "d3", 7⟩]⟩
  else
    .ok ⟨[]⟩

/-- The pages of `sendPagesExample`, indexed from 0. -/
def pagesExample : Nat → List TagInfo := fun i =>
  if i = 0 then [⟨"t1", "d1", 5⟩]
  else if i = 1 then [⟨"t2", "d2", 6⟩, ⟨"t3", "d3", 7⟩]
  else []

theorem C2_pagination_witness :
    FetchTags sendPagesExample "konflux/repo" 5 =
      .ok [⟨"t1", "d1", 5⟩, ⟨"t2", "d2", 6⟩, ⟨"t3", "d3", 7⟩] := by
  have h := C2_pagination.1 sendPagesExample "konflux/repo" 2 pagesExample 5
    (by decide) (by decide) (by decide)
  simpa using h

/-! ## RepositoryProcessor (`ProcessRepositories`, `processRepository`)

From the controller file of `pkg/oci`.  The environment bundles the calls
the orchestration makes: `fetchTags` (the `FetchTags` call, whose network
behaviour is external), `parse` (`time.Parse` with `time.RFC1123`), the
current instant `now` (`time.Since t = now - t`), and `processTag` (the
`ProcessTag` call for one tag).  The Go code fans repositories out to
goroutines bounded by a semaphore of 10 and drains the error channel after
`wg.Wait()`; the embedding sequentialises that fan-out, which preserves the
per-repository results and the multiset of collected errors. -/

/-- The external calls made by `processRepository` and `ProcessRepositories`. -/
structure RepoEnv where
  now : Int
  parse : String → Except String Time
  fetchTags : String → Except String (List TagInfo)
  processTag : String → String → String → Except String Unit

/-- The observable outcome of `processRepository` for one repository: its
returned error value, the tags for which `ProcessTag` was invoked (in order),
and the lines written via `log.Printf` for failed pulls. -/
structure RepoRun where
  result : Except String Unit
  invoked : List TagInfo
  logs : List String
deriving DecidableEq

/-- The `log.Printf` line `processRepository` emits when `ProcessTag` fails
for one tag. -/
def pullFailureLog (repo tagName e : String) : String :=
  "failed to process tag " ++ tagName ++
    " in repository. Tag repo might be deleted from quay " ++ repo ++ ": " ++ e

/-- The `for _, tagInfo := range tags` loop of `processRepository`: parse the
tag's `LastModified` (aborting the whole repository on a parse error), retain
the tag when `time.Since(parsedDate) < since && tagInfo.Size > 2`, and invoke
`ProcessTag` on retained tags, logging — not returning — pull failures. -/
def processRepositoryLoop (env : RepoEnv) (repo : String) (since : Int) :
    List TagInfo → RepoRun
  | [] => ⟨.ok (), [], []⟩
  | tagInfo :: rest =>
    match env.parse tagInfo.lastModified with
    | .error e =>
      ⟨.error ("failed to parse creation date " ++ tagInfo.lastModified ++
        ": " ++ e), [], []⟩
    | .ok parsedDate =>
      if env.now - parsedDate.unix < since ∧ tagInfo.size > 2 then
        match env.processTag repo tagInfo.name tagInfo.lastModified with
        | .ok _ =>
          let r := processRepositoryLoop env repo since rest
          ⟨r.result, tagInfo :: r.invoked, r.logs⟩
        | .error e =>
          let r := processRepositoryLoop env repo since rest
          ⟨r.result, tagInfo :: r.invoked,
            pullFailureLog repo tagInfo.name e :: r.logs⟩
      else
        processRepositoryLoop env repo since rest

/-- `processRepository` from the source: fetch the repository's tags, then
run the per-tag loop. -/
def processRepository (env : RepoEnv) (repo : String) (since : Int) :
    RepoRun :=
  match env.fetchTags repo with
  | .error e =>
    ⟨.error ("failed to fetch tags for repository " ++ repo ++ ": " ++ e),
      [], []⟩
  | .ok tags => processRepositoryLoop env repo since tags

/-- The aggregate outcome of `ProcessRepositories`: the drained error slice
and, per repository, its `processRepository` run. -/
structure ReposRun where
  errors : List String
  runs : List (String × RepoRun)
deriving DecidableEq

/-- `ProcessRepositories` from the source: run `processRepository` for every
repository, wrapping a failed repository's error as
`repository <repo>: <err>` in the aggregate error list, and never letting one
repository's failure affect the others. -/
def ProcessRepositories (env : RepoEnv) : List String → Int → ReposRun
  | [], _ => ⟨[], []⟩
  | repo :: rest, since =>
    let r := processRepository env repo since
    let tail := ProcessRepositories env rest since
    match r.result with
    | .error e =>
      ⟨("repository " ++ repo ++ ": " ++ e) :: tail.errors,
        (repo, r) :: tail.runs⟩
    | .ok _ => ⟨tail.errors, (repo, r) :: tail.runs⟩

/-- The retention predicate of `processRepository`, as a function of a tag:
its `LastModified` parses and satisfies
`time.Since(parsedDate) < since && tagInfo.Size > 2`. -/
def retained (env : RepoEnv) (since : Int) (t : TagInfo) : Bool :=
  match env.parse t.lastModified with
  | .ok d => decide (env.now - d.unix < since ∧ t.size > 2)
  | .error _ => false

theorem processRepositoryLoop_spec (env : RepoEnv) (repo : String)
    (since : Int) :
    ∀ tags : List TagInfo,
      (∀ t ∈ tags, ∃ d, env.parse t.lastModified = .ok d) →
      processRepositoryLoop env repo since tags =
        ⟨.ok (), tags.filter (retained env since),
          (tags.filter (retained env since)).filterMap (fun t =>
            match env.processTag repo t.name t.lastModified with
            | .ok _ => none
            | .error e => some (pullFailureLog repo t.name e))⟩ := by
  intro tags
  induction tags with
  | nil => intro _; rfl
  | cons t rest ih =>
    intro hparse
    obtain ⟨d, hd⟩ := hparse t (List.mem_cons_self t rest)
    have hrest := ih (fun u hu => hparse u (List.mem_cons_of_mem t hu))
    by_cases hcond : env.now - d.unix < since ∧ t.size > 2
    · have hret : retained env since t = true := by
        simp [retained, hd, hcond]
      cases hpt : env.processTag repo t.name t.lastModified with
      | ok u =>
        simp only [processRepositoryLoop, hd, if_pos hcond, hpt, hrest]
        simp [List.filter_cons, hret, List.filterMap_cons, hpt]
      | error e =>
        simp only [processRepositoryLoop, hd, if_pos hcond, hpt, hrest]
        simp [List.filter_cons, hret, List.filterMap_cons, hpt]
    · have hret : retained env since t = false := by
        simp only [retained, hd, decide_eq_false_iff_not]
        exact hcond
      simp only [processRepositoryLoop, hd, if_neg hcond, hrest]
      simp [List.filter_cons, hret]

theorem ProcessRepositories_spec (env : RepoEnv) (since : Int) :
    ∀ repos : List String,
      (ProcessRepositories env repos since).runs =
        repos.map (fun r => (r, processRepository env r since)) ∧
      (ProcessRepositories env repos since).errors =
        repos.filterMap (fun r =>
          match (processRepository env r since).result with
          | .error e => some ("repository " ++ r ++ ": " ++ e)
          | .ok _ => none) := by
  intro repos
  induction repos with
  | nil => exact ⟨rfl, rfl⟩
  | cons repo rest ih =>
    cases hres : (processRepository env repo since).result with
    | ok u =>
      constructor
      · simp only [ProcessRepositories, hres, List.map_cons]
        exact congrArg _ ih.1
      · simp only [ProcessRepositories, hres, List.filterMap_cons]
        exact ih.2
    | error e =>
      constructor
      · simp only [ProcessRepositories, hres, List.map_cons]
        exact congrArg _ ih.1
      · simp only [ProcessRepositories, hres, List.filterMap_cons]
        exact congrArg _ ih.2

/-- C1: For a repository processed with window `since`, provided every
fetched tag's `LastModified` parses, the tags for which `ProcessTag` is
invoked are exactly those with `now - lastModified < since` and `size > 2`;
in particular a tag whose timestamp is older than `now - since` or whose
size is at most 2 bytes is never pulled. -/
theorem C1_tag_filtering (env : RepoEnv) (repo : String) (since : Int)
    (tags : List TagInfo)
    (hfetch : env.fetchTags repo = .ok tags)
    (hparse : ∀ t ∈ tags, ∃ d, env.parse t.lastModified = .ok d) :
    (processRepository env repo since).invoked =
      tags.filter (retained env since) ∧
    ∀ t ∈ tags, ∀ d, env.parse t.lastModified = .ok d →
      ¬(env.now - d.unix < since ∧ t.size > 2) →
      t ∉ (processRepository env repo since).invoked := by
  have hloop := processRepositoryLoop_spec env repo since tags hparse
  have hinv : (processRepository env repo since).invoked =
      tags.filter (retained env since) := by
    simp only [processRepository, hfetch, hloop]
  refine ⟨hinv, ?_⟩
  intro t _ d hd hnot hmem
  rw [hinv] at hmem
  have hret := (List.mem_filter.mp hmem).2
  rw [retained, hd] at hret
  exact hnot (of_decide_eq_true hret)

/-- A fresh tag within the window and above the size guard. -/
def tagFresh : TagInfo := ⟨"fresh", "Fri, 10 Oct 2026 12:00:00 UTC", 100⟩

/-- A tag whose last-modified timestamp is older than the window. -/
def tagStale : TagInfo := ⟨"stale", "Wed, 01 Jan 2025 12:00:00 UTC", 100⟩

/-- A tag inside the window whose size is ≤ 2 bytes (a degenerate pull). -/
def tagTiny : TagInfo := ⟨"tiny", "Fri, 10 Oct 2026 13:00:00 UTC", 2⟩

/-- A concrete environment for the filtering claim: three tags, all with
parseable timestamps, one of them stale and one of them tiny. -/
def envFilter : RepoEnv :=
  { now := 1000000
  , parse := fun s =>
      if s = tagFresh.lastModified then .ok ⟨2026, 10, 10, 999000⟩
      else if s = tagStale.lastModified then .ok ⟨2025, 1, 1, 1000⟩
      else if s = tagTiny.lastModified then .ok ⟨2026, 10, 10, 999500⟩
      else .error "parsing time"
  , fetchTags := fun _ => .ok [tagFresh, tagStale, tagTiny]
  , processTag := fun _ _ _ => .ok () }

theorem C1_tag_filtering_witness :
    (processRepository envFilter "konflux/repo" 5000).invoked = [tagFresh] := by
  have h := C1_tag_filtering envFilter "konflux/repo" 5000
    [tagFresh, tagStale, tagTiny] rfl
    (by
      intro t ht
      fin_cases ht
      · exact ⟨⟨2026, 10, 10, 999000⟩, by decide⟩
      · exact ⟨⟨2025, 1, 1, 1000⟩, by decide⟩
      · exact ⟨⟨2026, 10, 10, 999500⟩, by decide⟩)
  rw [h.1]
  decide

/-- C5: With repositories A, B, C where B's tag fetch fails and A and C each
succeed with one retained tag that pulls cleanly, the aggregate holds exactly
one error — the wrapped fetch error naming B — and A and C are fully
processed: their runs succeed, having invoked the pull for their tag. -/
theorem C5_failure_isolation (env : RepoEnv) (since : Int)
    (A B C : String) (ta tc : TagInfo) (e : String) (da dc : Time)
    (hA : env.fetchTags A = .ok [ta])
    (hB : env.fetchTags B = .error e)
    (hC : env.fetchTags C = .ok [tc])
    (hpa : env.parse ta.lastModified = .ok da)
    (hqa : env.now - da.unix < since ∧ ta.size > 2)
    (hpc : env.parse tc.lastModified = .ok dc)
    (hqc : env.now - dc.unix < since ∧ tc.size > 2)
    (hta : env.processTag A ta.name ta.lastModified = .ok ())
    (htc : env.processTag C tc.name tc.lastModified = .ok ()) :
    (ProcessRepositories env [A, B, C] since).errors =
      ["repository " ++ B ++ ": " ++
        ("failed to fetch tags for repository " ++ B ++ ": " ++ e)] ∧
    (ProcessRepositories env [A, B, C] since).runs =
      [(A, ⟨.ok (), [ta], []⟩),
       (B, ⟨.error ("failed to fetch tags for repository " ++ B ++ ": " ++ e),
         [], []⟩),
       (C, ⟨.ok (), [tc], []⟩)] := by
  have hrunA : processRepository env A since = ⟨.ok (), [ta], []⟩ := by
    have := processRepositoryLoop_spec env A since [ta]
      (fun t ht => by
        rw [List.mem_singleton.mp ht]; exact ⟨da, hpa⟩)
    simp only [processRepository, hA, this]
    have hret : retained env since ta = true := by simp [retained, hpa, hqa]
    simp [List.filter_cons, hret, List.filterMap_cons, hta]
  have hrunC : processRepository env C since = ⟨.ok (), [tc], []⟩ := by
    have := processRepositoryLoop_spec env C since [tc]
      (fun t ht => by
        rw [List.mem_singleton.mp ht]; exact ⟨dc, hpc⟩)
    simp only [processRepository, hC, this]
    have hret : retained env since tc = true := by simp [retained, hpc, hqc]
    simp [List.filter_cons, hret, List.filterMap_cons, htc]
  have hrunB : processRepository env B since =
      ⟨.error ("failed to fetch tags for repository " ++ B ++ ": " ++ e),
        [], []⟩ := by
    simp only [processRepository, hB]
  obtain ⟨hruns, herrs⟩ := ProcessRepositories_spec env since [A, B, C]
  constructor
  · rw [herrs]
    simp [List.filterMap_cons, hrunA, hrunB, hrunC]
  · rw [hruns]
    simp [hrunA, hrunB, hrunC]

/-- A concrete three-repository environment: `repoB`'s fetch fails with a
simulated network error, `repoA` and `repoC` each return one good tag. -/
def envABC : RepoEnv :=
  { now := 1000000
  , parse := fun s =>
      if s = "Fri, 10 Oct 2026 12:00:00 UTC" then .ok ⟨2026, 10, 10, 999000⟩
      else .error "parsing time"
  , fetchTags := fun r =>
      if r = "repoA" then .ok [⟨"va", "Fri, 10 Oct 2026 12:00:00 UTC", 50⟩]
      else if r = "repoC" then
        .ok [⟨"vc", "Fri, 10 Oct 2026 12:00:00 UTC", 60⟩]
      else .error "connection refused"
  , processTag := fun _ _ _ => .ok () }

theorem C5_failure_isolation_witness :
    (ProcessRepositories envABC ["repoA", "repoB", "repoC"] 5000).errors =
      ["repository repoB: failed to fetch tags for repository repoB: " ++
        "connection refused"] ∧
    (ProcessRepositories envABC ["repoA", "repoB", "repoC"] 5000).runs =
      [("repoA", ⟨.ok (),
          [⟨"va", "Fri, 10 Oct 2026 12:00:00 UTC", 50⟩], []⟩),
       ("repoB", ⟨.error ("failed to fetch tags for repository repoB: " ++
          "connection refused"), [], []⟩),
       ("repoC", ⟨.ok (),
          [⟨"vc", "Fri, 10 Oct 2026 12:00:00 UTC", 60⟩], []⟩)] := by
  have h := C5_failure_isolation envABC 5000 "repoA" "repoB" "repoC"
    ⟨"va", "Fri, 10 Oct 2026 12:00:00 UTC", 50⟩
    ⟨"vc", "Fri, 10 Oct 2026 12:00:00 UTC", 60⟩
    "connection refused" ⟨2026, 10, 10, 999000⟩ ⟨2026, 10, 10, 999000⟩
    (by decide) (by decide) (by decide) (by decide) (by decide)
    (by decide) (by decide) (by decide) (by decide)
  exact h

/-- Environment with a single repository whose single retained tag fails to
pull: the fetch succeeds, the tag parses and qualifies, and `ProcessTag`
returns an error. -/
def envPullFail : RepoEnv :=
  { now := 1000000
  , parse := fun _ => .ok ⟨2026, 10, 10, 999000⟩
  , fetchTags := fun _ => .ok [⟨"v1", "Fri, 10 Oct 2026 12:00:00 UTC", 50⟩]
  , processTag := fun _ _ _ => .error "manifest gone" }

/-- C7 counterexample: a pull failure is logged but never recorded in the
aggregate result.  In this environment the only repository's only retained
tag fails to pull, yet `ProcessRepositories` returns an empty error slice —
the failure exists solely as a `log.Printf` line, contradicting the claim
that it is "recorded in the aggregate result". -/
theorem C7_counterexample :
    envPullFail.processTag "repo1" "v1" "Fri, 10 Oct 2026 12:00:00 UTC" =
      .error "manifest gone" ∧
    (ProcessRepositories envPullFail ["repo1"] 5000).errors = [] ∧
    (ProcessRepositories envPullFail ["repo1"] 5000).runs =
      [("repo1", ⟨.ok (), [⟨"v1", "Fri, 10 Oct 2026 12:00:00 UTC", 50⟩],
        [pullFailureLog "repo1" "v1" "manifest gone"]⟩)] := by
  refine ⟨rfl, ?_, ?_⟩ <;> decide

/-- C7 (amended): a pull failure for one retained tag is logged via
`log.Printf` and processing continues — the repository's remaining tags are
still pulled and its run still ends in success — but the failure is NOT
recorded in the aggregate result: `processRepository` returns nil after pull
failures, so `ProcessRepositories` collects no error for them. -/
theorem C7_pull_failure_logged_only (env : RepoEnv) (repo : String)
    (since : Int) (tags : List TagInfo)
    (hfetch : env.fetchTags repo = .ok tags)
    (hparse : ∀ t ∈ tags, ∃ d, env.parse t.lastModified = .ok d) :
    (processRepository env repo since).result = .ok () ∧
    (processRepository env repo since).invoked =
      tags.filter (retained env since) ∧
    (processRepository env repo since).logs =
      (tags.filter (retained env since)).filterMap (fun t =>
        match env.processTag repo t.name t.lastModified with
        | .ok _ => none
        | .error e => some (pullFailureLog repo t.name e)) ∧
    (ProcessRepositories env [repo] since).errors = [] := by
  have hloop := processRepositoryLoop_spec env repo since tags hparse
  have hrun : processRepository env repo since =
      ⟨.ok (), tags.filter (retained env since),
        (tags.filter (retained env since)).filterMap (fun t =>
          match env.processTag repo t.name t.lastModified with
          | .ok _ => none
          | .error e => some (pullFailureLog repo t.name e))⟩ := by
    simp only [processRepository, hfetch, hloop]
  refine ⟨by rw [hrun], by rw [hrun], by rw [hrun], ?_⟩
  have herrs := (ProcessRepositories_spec env since [repo]).2
  rw [herrs]
  simp [List.filterMap_cons, hrun]

/-- Environment for the C7 witness: two retained tags, the first of which
fails to pull while the second succeeds. -/
def envPullMixed : RepoEnv :=
  { now := 1000000
  , parse := fun _ => .ok ⟨2026, 10, 10, 999000⟩
  , fetchTags := fun _ =>
      .ok [⟨"bad", "d1", 50⟩, ⟨"good", "d2", 60⟩]
  , processTag := fun _ tagName _ =>
      if tagName = "bad" then .error "manifest gone" else .ok () }

theorem C7_pull_failure_logged_only_witness :
    (processRepository envPullMixed "repo1" 5000).result = .ok () ∧
    (processRepository envPullMixed "repo1" 5000).invoked =
      [⟨"bad", "d1", 50⟩, ⟨"good", "d2", 60⟩] ∧
    (processRepository envPullMixed "repo1" 5000).logs =
      [pullFailureLog "repo1" "bad" "manifest gone"] ∧
    (ProcessRepositories envPullMixed ["repo1"] 5000).errors = [] := by
  have h := C7_pull_failure_logged_only envPullMixed "repo1" 5000
    [⟨"bad", "d1", 50⟩, ⟨"good", "d2", 60⟩] rfl
    (fun t _ => ⟨⟨2026, 10, 10, 999000⟩, rfl⟩)
  refine ⟨h.1, ?_, ?_, h.2.2.2⟩
  · rw [h.2.1]; decide
  · rw [h.2.2.1]; decide

/-- Environment for the C9 counterexample: the fetched tag list has a
well-formed, retained tag FIRST and a tag with an unparseable
`LastModified` second. -/
def envBadDate : RepoEnv :=
  { now := 1000000
  , parse := fun s =>
      if s = "not-a-date" then .error "parsing time" else .ok ⟨2026, 10, 10, 999000⟩
  , fetchTags := fun _ =>
      .ok [⟨"good", "Fri, 10 Oct 2026 12:00:00 UTC", 50⟩,
           ⟨"bad", "not-a-date", 60⟩]
  , processTag := fun _ _ _ => .ok () }

/-- C9 counterexample: an unparseable `LastModified` does NOT abort the
repository "before any filtering".  The parse happens per tag inside the
loop, so here the well-formed first tag is filtered and pulled before the
malformed second tag aborts the repository: the run ends in a parse error,
yet the invoked list is nonempty. -/
theorem C9_counterexample :
    (processRepository envBadDate "repo1" 5000).result =
      .error ("failed to parse creation date not-a-date: parsing time") ∧
    (processRepository envBadDate "repo1" 5000).invoked =
      [⟨"good", "Fri, 10 Oct 2026 12:00:00 UTC", 50⟩] ∧
    (processRepository envBadDate "repo1" 5000).invoked ≠ [] := by
  refine ⟨?_, ?_, ?_⟩ <;> decide

theorem processRepositoryLoop_parse_abort (env : RepoEnv) (repo : String)
    (since : Int) (bad : TagInfo) (e : String)
    (hbad : env.parse bad.lastModified = .error e) :
    ∀ (pre rest : List TagInfo),
      (∀ t ∈ pre, ∃ d, env.parse t.lastModified = .ok d) →
      (processRepositoryLoop env repo since (pre ++ bad :: rest)).result =
        .error ("failed to parse creation date " ++ bad.lastModified ++
          ": " ++ e) ∧
      (processRepositoryLoop env repo since (pre ++ bad :: rest)).invoked =
        pre.filter (retained env since) := by
  intro pre
  induction pre with
  | nil =>
    intro rest _
    constructor
    · simp only [List.nil_append, processRepositoryLoop, hbad]
    · simp only [List.nil_append, processRepositoryLoop, hbad,
        List.filter_nil]
  | cons t pre ih =>
    intro rest hparse
    obtain ⟨d, hd⟩ := hparse t (List.mem_cons_self t pre)
    have hrest := ih rest (fun u hu => hparse u (List.mem_cons_of_mem t hu))
    by_cases hcond : env.now - d.unix < since ∧ t.size > 2
    · have hret : retained env since t = true := by
        simp [retained, hd, hcond]
      cases hpt : env.processTag repo t.name t.lastModified with
      | ok u =>
        simp only [List.cons_append, processRepositoryLoop, hd,
          if_pos hcond, hpt]
        exact ⟨hrest.1, by simp [List.filter_cons, hret, hrest.2]⟩
      | error e2 =>
        simp only [List.cons_append, processRepositoryLoop, hd,
          if_pos hcond, hpt]
        exact ⟨hrest.1, by simp [List.filter_cons, hret, hrest.2]⟩
    · have hret : retained env since t = false := by
        simp only [retained, hd, decide_eq_false_iff_not]
        exact hcond
      simp only [List.cons_append, processRepositoryLoop, hd, if_neg hcond]
      exact ⟨hrest.1, by simp [List.filter_cons, hret, hrest.2]⟩

/-- C9 (amended): an unparseable `LastModified` aborts the repository at the
first malformed tag — the repository's run ends in a parse error and no tag
AFTER the malformed one is pulled — but tags BEFORE it in the fetched order
have already been filtered and, when retained, pulled.  (Unlike a pull
failure, which affects only its own tag, the parse failure does abort the
rest of the repository.) -/
theorem C9_parse_abort (env : RepoEnv) (repo : String) (since : Int)
    (pre rest : List TagInfo) (bad : TagInfo) (e : String)
    (hfetch : env.fetchTags repo = .ok (pre ++ bad :: rest))
    (hpre : ∀ t ∈ pre, ∃ d, env.parse t.lastModified = .ok d)
    (hbad : env.parse bad.lastModified = .error e) :
    (processRepository env repo since).result =
      .error ("failed to parse creation date " ++ bad.lastModified ++
        ": " ++ e) ∧
    (processRepository env repo since).invoked =
      pre.filter (retained env since) := by
  have h := processRepositoryLoop_parse_abort env repo since bad e hbad
    pre rest hpre
  simp only [processRepository, hfetch]
  exact h

theorem C9_parse_abort_witness :
    (processRepository envBadDate "repo2" 5000).result =
      .error ("failed to parse creation date " ++ "not-a-date" ++
        ": " ++ "parsing time") ∧
    (processRepository envBadDate "repo2" 5000).invoked =
      [⟨"good", "Fri, 10 Oct 2026 12:00:00 UTC", 50⟩] := by
  have h := C9_parse_abort envBadDate "repo2" 5000
    [⟨"good", "Fri, 10 Oct 2026 12:00:00 UTC", 50⟩] []
    ⟨"bad", "not-a-date", 60⟩ "parsing time" rfl
    (fun t ht => ⟨⟨2026, 10, 10, 999000⟩, by
      rw [List.mem_singleton.mp ht]; rfl⟩)
    (by rfl)
  refine ⟨h.1, ?_⟩
  rw [h.2]
  decide

/-! ## ArtifactPuller (`ProcessTag`, `createOutputDirectory`)

From the blob-pulling file of `pkg/oci`.  `ProcessTag` creates a context
with a 2-minute timeout at entry (`context.WithTimeout`), then runs:
`setupRemoteRepository` (no context argument), `copyTagManifest` (receives
the context — `oras.Copy` fails once the deadline has passed),
`os.MkdirAll` on the output directory (no context), and `processBlobs`
(no context; blob extraction has its own per-blob timeout).  Each external
step is modelled by a duration in seconds plus an optional failure; elapsed
time is accounted explicitly, and only the copy step compares it against the
deadline, exactly as only `oras.Copy` receives `ctx`. -/

/-- `blobTimeout` from the source: `2 * time.Minute`, in seconds. -/
def blobTimeout : Nat := 2 * 60

/-- The configuration fields of the Go `Controller` that `ProcessTag` and
`createOutputDirectory` read. -/
structure Controller where
  OutputDir : String
  BlobDir : String

/-- One external step as the embedding sees it: how long it takes and
whether it fails. -/
structure StepSpec where
  dur : Nat
  err : Option String
deriving DecidableEq

/-- The external calls of one `ProcessTag` invocation. -/
structure TagEnv where
  parse : String → Except String Time
  setup : StepSpec
  copy : StepSpec
  mkdir : StepSpec
  blobs : StepSpec

/-- The observable outcome of a `ProcessTag` call: its returned error value,
the wall-clock seconds the call consumed, and the output directory it
created (when execution reached and completed `os.MkdirAll`). -/
structure TagRun where
  result : Except String Unit
  elapsed : Nat
  createdDir : Option String
deriving DecidableEq

/-- `filepath.Join` on clean, nonempty path components. -/
def joinPath (parts : List String) : String :=
  String.intercalate "/" parts

/-- `createOutputDirectory` from the source:
`parsedDate, _ := time.Parse(time.RFC1123, creationDate)` discards the parse
error, so an unparseable date leaves `parsedDate` as the zero `time.Time`,
and the directory is
`filepath.Join(c.OutputDir, repo, parsedDate.Format("2006-01-02"), tag)`. -/
def createOutputDirectory (c : Controller) (parse : String → Except String Time)
    (repo creationDate tag : String) : String :=
  let parsedDate := match parse creationDate with
    | .ok d => d
    | .error _ => zeroTime
  joinPath [c.OutputDir, repo, parsedDate.formatYMD, tag]

/-- `ProcessTag` from the source, with explicit time accounting.  The
2-minute context is created at entry, so the deadline is measured from time
zero; `setupRemoteRepository` runs without the context; the copy observes
the deadline (an `oras.Copy` still running — or first polling the context —
after the deadline returns a context error, wrapped by `copyTagManifest`);
`os.MkdirAll` and `processBlobs` run without the context. -/
def ProcessTag (c : Controller) (env : TagEnv)
    (repo tag creationDate : String) : TagRun :=
  let t1 := env.setup.dur
  match env.setup.err with
  | some e => ⟨.error e, t1, none⟩
  | none =>
    if blobTimeout < t1 + env.copy.dur then
      ⟨.error ("failed to copy manifest for tag " ++ tag ++
        ": context deadline exceeded"), blobTimeout, none⟩
    else
      match env.copy.err with
      | some e =>
        ⟨.error ("failed to copy manifest for tag " ++ tag ++ ": " ++ e),
          t1 + env.copy.dur, none⟩
      | none =>
        let t2 := t1 + env.copy.dur
        let outputDir := createOutputDirectory c env.parse repo creationDate tag
        match env.mkdir.err with
        | some e =>
          ⟨.error ("failed to create output directory " ++ outputDir ++
            ": " ++ e), t2 + env.mkdir.dur, none⟩
        | none =>
          let t3 := t2 + env.mkdir.dur
          match env.blobs.err with
          | some e => ⟨.error e, t3 + env.blobs.dur, some outputDir⟩
          | none => ⟨.ok (), t3 + env.blobs.dur, some outputDir⟩

/-- A controller instance for concrete runs. -/
def ctrlExample : Controller := ⟨"/tmp/output", "/tmp/store/blobs/sha256/"⟩

/-- Environment in which every step succeeds, the setup and copy are
instantaneous, and the blob-extraction step takes 100000 seconds — far
beyond the 2-minute deadline. -/
def envSlowBlobs : TagEnv :=
  { parse := fun _ => .ok ⟨2026, 10, 10, 999000⟩
  , setup := ⟨0, none⟩
  , copy := ⟨0, none⟩
  , mkdir := ⟨0, none⟩
  , blobs := ⟨100000, none⟩ }

/-- C6 counterexample: the whole `ProcessTag` call is NOT governed by the
2-minute deadline.  Here the call consumes 100000 seconds — far past
`blobTimeout` — inside the blob-extraction hand-off, yet returns success
rather than aborting with a timeout error, because only the manifest copy
receives the timeout context. -/
theorem C6_counterexample :
    blobTimeout < (ProcessTag ctrlExample envSlowBlobs "r" "t" "d").elapsed ∧
    (ProcessTag ctrlExample envSlowBlobs "r" "t" "d").result = .ok () := by
  refine ⟨?_, ?_⟩ <;> decide

/-- C6 (amended): the 2-minute deadline of `ProcessTag` governs only the
manifest-and-blob copy step.  The clock starts at call entry, so time spent
in remote-repository resolution counts against the copy's deadline, and a
copy that would finish after the deadline aborts the call with a timeout
error naming the tag; but once the copy has completed in time, the call
succeeds regardless of how long directory creation or blob extraction take —
those steps never receive the deadline context. -/
theorem C6_copy_deadline :
    (∀ (c : Controller) (env : TagEnv) (repo tag creationDate : String),
      env.setup.err = none →
      blobTimeout < env.setup.dur + env.copy.dur →
      (ProcessTag c env repo tag creationDate).result =
        .error ("failed to copy manifest for tag " ++ tag ++
          ": context deadline exceeded")) ∧
    (∀ (c : Controller) (env : TagEnv) (repo tag creationDate : String),
      env.setup.err = none → env.copy.err = none → env.mkdir.err = none →
      env.blobs.err = none →
      env.setup.dur + env.copy.dur ≤ blobTimeout →
      (ProcessTag c env repo tag creationDate).result = .ok ()) := by
  constructor
  · intro c env repo tag creationDate hs hdl
    simp only [ProcessTag, hs, if_pos hdl]
  · intro c env repo tag creationDate hs hc hm hb hdl
    simp only [ProcessTag, hs, if_neg (by omega : ¬ blobTimeout <
      env.setup.dur + env.copy.dur), hc, hm, hb]

/-- Environment whose copy step would finish 30 seconds past the deadline. -/
def envSlowCopy : TagEnv :=
  { parse := fun _ => .ok ⟨2026, 10, 10, 999000⟩
  , setup := ⟨10, none⟩
  , copy := ⟨140, none⟩
  , mkdir := ⟨0, none⟩
  , blobs := ⟨0, none⟩ }

theorem C6_copy_deadline_witness :
    (ProcessTag ctrlExample envSlowCopy "r" "t" "d").result =
      .error ("failed to copy manifest for tag " ++ "t" ++
        ": context deadline exceeded") ∧
    (ProcessTag ctrlExample envSlowBlobs "r" "t2" "d").result = .ok () := by
  constructor
  · exact C6_copy_deadline.1 ctrlExample envSlowCopy "r" "t" "d" rfl
      (by decide)
  · exact C6_copy_deadline.2 ctrlExample envSlowBlobs "r" "t2" "d" rfl rfl
      rfl rfl (by decide)

/-- C10: `ProcessTag` never fails because of an unparseable `creationDate`.
`createOutputDirectory` discards the `time.Parse` error, so an invalid
RFC1123 string yields the zero time, whose `2006-01-02` rendering is
`0001-01-01`; the directory `outputRoot/repo/0001-01-01/tag` is computed,
created, and used, and the call succeeds whenever its other steps do. -/
theorem C10_zero_date (c : Controller) (env : TagEnv)
    (repo tag creationDate e : String)
    (hparse : env.parse creationDate = .error e)
    (hs : env.setup.err = none) (hc : env.copy.err = none)
    (hm : env.mkdir.err = none) (hb : env.blobs.err = none)
    (hdl : env.setup.dur + env.copy.dur ≤ blobTimeout) :
    createOutputDirectory c env.parse repo creationDate tag =
      joinPath [c.OutputDir, repo, "0001-01-01", tag] ∧
    (ProcessTag c env repo tag creationDate).result = .ok () ∧
    (ProcessTag c env repo tag creationDate).createdDir =
      some (joinPath [c.OutputDir, repo, "0001-01-01", tag]) := by
  have hdir : createOutputDirectory c env.parse repo creationDate tag =
      joinPath [c.OutputDir, repo, "0001-01-01", tag] := by
    simp only [createOutputDirectory, hparse]
    rfl
  refine ⟨hdir, ?_, ?_⟩
  · simp only [ProcessTag, hs, if_neg (by omega : ¬ blobTimeout <
      env.setup.dur + env.copy.dur), hc, hm, hb]
  · simp only [ProcessTag, hs, if_neg (by omega : ¬ blobTimeout <
      env.setup.dur + env.copy.dur), hc, hm, hb]
    rw [hdir]

/-- Environment for the C10 witness: every `creationDate` fails to parse and
every step succeeds instantly. -/
def envNoParse : TagEnv :=
  { parse := fun _ => .error "parsing time"
  , setup := ⟨0, none⟩
  , copy := ⟨0, none⟩
  , mkdir := ⟨0, none⟩
  , blobs := ⟨0, none⟩ }

theorem C10_zero_date_witness :
    createOutputDirectory ctrlExample envNoParse.parse "konflux/repo"
      "garbage-date" "v1" = "/tmp/output/konflux/repo/0001-01-01/v1" ∧
    (ProcessTag ctrlExample envNoParse "konflux/repo" "v1"
      "garbage-date").result = .ok () := by
  have h := C10_zero_date ctrlExample envNoParse "konflux/repo" "v1"
    "garbage-date" "parsing time" rfl rfl rfl rfl rfl (by decide)
  exact ⟨by rw [h.1]; decide, h.2.1⟩

/-! ## BlobExtractor: blob detection (`processBlob`, `isTarGzBlob`)

From `pkg/oci/blob_handler.go`.  A blob file is its path plus its bytes.
`isTarGzBlob` reads the first two bytes into a zeroed buffer of length 2
(`file.Read` returns an error — EOF — only when the file is empty, making
the function return `false` early); otherwise it reports
`strings.HasSuffix(blobPath, ".tar.gz") || (buf[0] == 0x1F && buf[1] ==
0x8B)`.  `processBlob` stats the file, returns an error for an empty file,
hands archive blobs to `extractBlob`, and returns nil without extraction for
everything else.  The hand-off is the environment parameter
`extractBlob`. -/

/-- A blob file in the local content store: its (cleaned) path and bytes. -/
structure Blob where
  path : String
  content : List Nat
deriving DecidableEq

/-- Go `strings.HasSuffix`, on the character sequences of the strings. -/
def hasSuffix (s suffix : String) : Bool :=
  List.isSuffixOf suffix.data s.data

/-- `isTarGzBlob` from the source.  On a nonempty file, `buf[0]` is the
first byte and `buf[1]` is the second byte or the zero the buffer was
initialised with. -/
def isTarGzBlob (blobPath : String) (content : List Nat) : Bool :=
  match content with
  | [] => false
  | b0 :: rest =>
    hasSuffix blobPath ".tar.gz" ||
      (decide (b0 = 0x1F) && decide (rest.headD 0 = 0x8B))

/-- What `processBlob` did with a blob: handed it to `extractBlob`
(carrying that call's result), returned nil without extraction, or returned
its own error. -/
inductive BlobResult where
  | extracted (r : Except String Unit) : BlobResult
  | ignored : BlobResult
  | failed (msg : String) : BlobResult
deriving DecidableEq

/-- `processBlob` from the source: error on an empty file, extract archive
blobs, ignore the rest. -/
def processBlob (extractBlob : Blob → Except String Unit) (b : Blob) :
    BlobResult :=
  if b.content.length = 0 then
    .failed ("blob " ++ b.path ++ " is empty, skipping")
  else if isTarGzBlob b.path b.content then .extracted (extractBlob b)
  else .ignored

/-- C4 counterexample: an empty file is NOT ignored without error — it makes
`processBlob` return the error `blob <path> is empty, skipping` (which
`HandleBlob` pushes onto the error channel and `processBlobs` logs). -/
theorem C4_counterexample :
    processBlob (fun _ => .ok ()) ⟨"somedigest", []⟩ =
      .failed "blob somedigest is empty, skipping" ∧
    processBlob (fun _ => .ok ()) ⟨"somedigest", []⟩ ≠ .ignored := by
  refine ⟨?_, ?_⟩ <;> decide

/-- C4 (amended): `processBlob` treats a file as an archive blob and extracts
it exactly when it is non-empty and (its path has the `.tar.gz` suffix or its
first two bytes are the gzip magic 0x1F 0x8B); a non-empty file meeting
neither condition is ignored without error; an EMPTY file, however, is not
silently ignored — it produces the error `blob <path> is empty, skipping`. -/
theorem C4_blob_detection (extractBlob : Blob → Except String Unit)
    (b : Blob) :
    ((∃ r, processBlob extractBlob b = .extracted r) ↔
      (b.content ≠ [] ∧ isTarGzBlob b.path b.content = true)) ∧
    (processBlob extractBlob b = .ignored ↔
      (b.content ≠ [] ∧ isTarGzBlob b.path b.content = false)) ∧
    (b.content = [] →
      processBlob extractBlob b =
        .failed ("blob " ++ b.path ++ " is empty, skipping")) ∧
    (∀ b0 rest, b.content = b0 :: rest →
      (isTarGzBlob b.path b.content = true ↔
        (hasSuffix b.path ".tar.gz" = true ∨
          (b0 = 0x1F ∧ rest.headD 0 = 0x8B)))) := by
  refine ⟨?_, ?_, ?_, ?_⟩
  · constructor
    · rintro ⟨r, hr⟩
      by_cases hempty : b.content.length = 0
      · rw [processBlob, if_pos hempty] at hr
        exact absurd hr (by simp)
      · rw [processBlob, if_neg hempty] at hr
        by_cases htgz : isTarGzBlob b.path b.content
        · exact ⟨by simpa [List.length_eq_zero] using hempty, htgz⟩
        · rw [if_neg htgz] at hr
          exact absurd hr (by simp)
    · rintro ⟨hne, htgz⟩
      refine ⟨extractBlob b, ?_⟩
      rw [processBlob, if_neg (by simpa [List.length_eq_zero] using hne),
        if_pos htgz]
  · constructor
    · intro hr
      by_cases hempty : b.content.length = 0
      · rw [processBlob, if_pos hempty] at hr
        exact absurd hr (by simp)
      · rw [processBlob, if_neg hempty] at hr
        by_cases htgz : isTarGzBlob b.path b.content
        · rw [if_pos htgz] at hr
          exact absurd hr (by simp)
        · exact ⟨by simpa [List.length_eq_zero] using hempty,
            Bool.not_eq_true _ ▸ htgz⟩
    · rintro ⟨hne, htgz⟩
      rw [processBlob, if_neg (by simpa [List.length_eq_zero] using hne),
        if_neg (by simp [htgz])]
  · intro hempty
    rw [processBlob, if_pos (by simp [hempty])]
  · intro b0 rest hcontent
    rw [hcontent]
    simp [isTarGzBlob]

theorem C4_blob_detection_witness :
    processBlob (fun _ => .ok ()) ⟨"plain.txt", [0x41, 0x42]⟩ = .ignored ∧
    processBlob (fun _ => .ok ()) ⟨"empty.bin", []⟩ =
      .failed "blob empty.bin is empty, skipping" := by
  constructor
  · exact (C4_blob_detection (fun _ => .ok ())
      ⟨"plain.txt", [0x41, 0x42]⟩).2.1.mpr ⟨by decide, by decide⟩
  · exact (C4_blob_detection (fun _ => .ok ()) ⟨"empty.bin", []⟩).2.2.1 rfl

/-! ## BlobExtractor: tar extraction (`extractTarGz`, `handleTarEntry`,
`createFileFromTar`)

From `pkg/oci/blob_handler.go`.  Paths are lists of components (the result
of joining and cleaning in `filepath.Join(dest, header.Name)`), and the
filesystem is the set of directories plus an association list from paths to
regular-file contents.  An archive blob is modelled after gzip/tar decoding:
the list of its tar entries (header plus body).  Following the source:
`os.MkdirAll` creates a directory and all missing ancestors and cannot fail
on a sane tree; `os.Stat(p) == nil` exactly when `p` exists as a directory
or a regular file; `os.Create` fails when the parent directory is missing,
and is only reached for paths whose stat failed. -/

/-- A filesystem path as its cleaned components. -/
abbrev TarPath := List String

/-- The tar `Typeflag` cases `handleTarEntry` distinguishes. -/
inductive TarTypeflag where
  | typeDir : TarTypeflag
  | typeReg : TarTypeflag
  | typeOther (flag : Char) : TarTypeflag
deriving DecidableEq

/-- The fields of `tar.Header` the extractor reads. -/
structure TarHeader where
  name : TarPath
  typeflag : TarTypeflag
deriving DecidableEq

/-- One tar entry: its header and (for regular files) its byte content. -/
structure TarEntry where
  header : TarHeader
  content : String
deriving DecidableEq

/-- The filesystem as the extractor observes it: existing directories and
regular files with their contents. -/
structure FS where
  dirs : List TarPath
  files : List (TarPath × String)
deriving DecidableEq

/-- Regular-file lookup: the content stored at a path, if any. -/
def findFile : List (TarPath × String) → TarPath → Option String
  | [], _ => none
  | (q, c) :: rest, p => if q = p then some c else findFile rest p

/-- Whether a path is an existing directory (the extraction root `[]`
always exists: `ProcessTag` created the output directory). -/
def FS.isDirPath (fs : FS) (p : TarPath) : Bool :=
  decide (p = []) || decide (p ∈ fs.dirs)

/-- `os.Stat(p) == nil`: the path exists as a directory or a file. -/
def FS.statOk (fs : FS) (p : TarPath) : Bool :=
  fs.isDirPath p || (findFile fs.files p).isSome

/-- The nonempty prefixes of a path: the directories `os.MkdirAll`
guarantees to exist afterwards. -/
def tarPrefixes (p : TarPath) : List TarPath :=
  (List.range p.length).map (fun i => p.take (i + 1))

/-- `os.MkdirAll`: create the directory and every missing ancestor. -/
def FS.mkdirAll (fs : FS) (p : TarPath) : FS :=
  { fs with
    dirs := fs.dirs ++ (tarPrefixes p).filter (fun q => !decide (q ∈ fs.dirs)) }

/-- `createFileFromTar` (via `os.Create` + `io.Copy`): write the entry body
to a new file, failing when the parent directory does not exist. -/
def createFileFromTar (fs : FS) (p : TarPath) (content : String) :
    Except String FS :=
  if fs.isDirPath p.dropLast then
    .ok { fs with files := (p, content) :: fs.files }
  else
    .error "failed to create file: no such file or directory"

/-- `handleTarEntry` from the source: directories via `MkdirAll`; regular
files skipped when `os.Stat` succeeds, created otherwise; every other
typeflag is an extraction error. -/
def handleTarEntry (fs : FS) (header : TarHeader) (content : String)
    (destPath : TarPath) : Except String FS :=
  match header.typeflag with
  | .typeDir => .ok (fs.mkdirAll destPath)
  | .typeReg =>
    if fs.statOk destPath then .ok fs
    else createFileFromTar fs destPath content
  | .typeOther _ => .error "unsupported tar entry"

/-- The entry loop of `extractTarGz`: handle each decoded tar entry at
`filepath.Join(dest, header.Name)`, aborting the blob on the first entry
error. -/
def extractTarGz (fs : FS) (entries : List TarEntry) (dest : TarPath) :
    Except String FS :=
  match entries with
  | [] => .ok fs
  | e :: rest =>
    match handleTarEntry fs e.header e.content (dest ++ e.header.name) with
    | .error err => .error err
    | .ok fs2 => extractTarGz fs2 rest dest

theorem handleTarEntry_mono {fs fs2 : FS} {h : TarHeader} {ct : String}
    {p : TarPath} (hok : handleTarEntry fs h ct p = .ok fs2) :
    (∀ q, q ∈ fs.dirs → q ∈ fs2.dirs) ∧
    (∀ q c, findFile fs.files q = some c → findFile fs2.files q = some c) := by
  cases hflag : h.typeflag with
  | typeDir =>
    rw [handleTarEntry, hflag] at hok
    obtain rfl : fs.mkdirAll p = fs2 := Except.ok.inj hok
    exact ⟨fun q hq => List.mem_append_left _ hq, fun q c hc => hc⟩
  | typeReg =>
    rw [handleTarEntry, hflag] at hok
    by_cases hstat : fs.statOk p
    · rw [if_pos hstat] at hok
      obtain rfl : fs = fs2 := Except.ok.inj hok
      exact ⟨fun q hq => hq, fun q c hc => hc⟩
    · rw [if_neg hstat] at hok
      rw [createFileFromTar] at hok
      by_cases hpar : fs.isDirPath p.dropLast
      · rw [if_pos hpar] at hok
        obtain rfl : ({ fs with files := (p, ct) :: fs.files } : FS) = fs2 :=
          Except.ok.inj hok
        refine ⟨fun q hq => hq, fun q c hc => ?_⟩
        have hqp : q ≠ p := by
          intro hqp
          rw [hqp] at hc
          have : ¬ (findFile fs.files p).isSome = true := by
            intro hsome
            exact hstat (by rw [FS.statOk, hsome, Bool.or_true])
          rw [hc] at this
          exact this rfl
        simpa [findFile, Ne.symm hqp] using hc
      · rw [if_neg hpar] at hok
        exact absurd hok (by simp)
  | typeOther fl =>
    rw [handleTarEntry, hflag] at hok
    exact absurd hok (by simp)

theorem handleTarEntry_statOk_mono {fs fs2 : FS} {h : TarHeader}
    {ct : String} {p : TarPath}
    (hok : handleTarEntry fs h ct p = .ok fs2) :
    ∀ q, fs.statOk q = true → fs2.statOk q = true := by
  intro q hq
  obtain ⟨hdirs, hfiles⟩ := handleTarEntry_mono hok
  rw [FS.statOk, Bool.or_eq_true] at hq
  rcases hq with hdir | hfile
  · rw [FS.isDirPath, Bool.or_eq_true] at hdir
    rcases hdir with hroot | hmem
    · exact by simp [FS.statOk, FS.isDirPath, of_decide_eq_true hroot]
    · have := hdirs q (of_decide_eq_true hmem)
      simp [FS.statOk, FS.isDirPath, this]
  · obtain ⟨c, hc⟩ := Option.isSome_iff_exists.mp hfile
    have := hfiles q c hc
    simp [FS.statOk, this]

theorem extractTarGz_mono {entries : List TarEntry} :
    ∀ {fs fs2 : FS} {dest : TarPath},
      extractTarGz fs entries dest = .ok fs2 →
      (∀ q, q ∈ fs.dirs → q ∈ fs2.dirs) ∧
      (∀ q c, findFile fs.files q = some c → findFile fs2.files q = some c) ∧
      (∀ q, fs.statOk q = true → fs2.statOk q = true) := by
  induction entries with
  | nil =>
    intro fs fs2 dest hok
    obtain rfl : fs = fs2 := Except.ok.inj hok
    exact ⟨fun q hq => hq, fun q c hc => hc, fun q hq => hq⟩
  | cons e rest ih =>
    intro fs fs2 dest hok
    rw [extractTarGz] at hok
    cases hhead : handleTarEntry fs e.header e.content
        (dest ++ e.header.name) with
    | error err => rw [hhead] at hok; exact absurd hok (by simp)
    | ok fsm =>
      rw [hhead] at hok
      obtain ⟨hd1, hf1⟩ := handleTarEntry_mono hhead
      have hs1 := handleTarEntry_statOk_mono hhead
      obtain ⟨hd2, hf2, hs2⟩ := ih hok
      exact ⟨fun q hq => hd2 q (hd1 q hq),
        fun q c hc => hf2 q c (hf1 q c hc),
        fun q hq => hs2 q (hs1 q hq)⟩

/-- What a successfully handled entry guarantees about the filesystem:
a directory entry's path (with all its ancestors) exists as a directory; a
regular entry's path stats successfully.  Other typeflags never succeed. -/
def established (h : TarHeader) (destPath : TarPath) (fs : FS) : Prop :=
  match h.typeflag with
  | .typeDir => ∀ q ∈ tarPrefixes destPath, q ∈ fs.dirs
  | .typeReg => fs.statOk destPath = true
  | .typeOther _ => False

theorem handleTarEntry_establishes {fs fs2 : FS} {h : TarHeader}
    {ct : String} {p : TarPath}
    (hok : handleTarEntry fs h ct p = .ok fs2) : established h p fs2 := by
  cases hflag : h.typeflag with
  | typeDir =>
    rw [handleTarEntry, hflag] at hok
    obtain rfl : fs.mkdirAll p = fs2 := Except.ok.inj hok
    rw [established, hflag]
    intro q hq
    rw [FS.mkdirAll]
    by_cases hmem : q ∈ fs.dirs
    · exact List.mem_append_left _ hmem
    · refine List.mem_append_right _ ?_
      rw [List.mem_filter]
      exact ⟨hq, by simp [hmem]⟩
  | typeReg =>
    rw [handleTarEntry, hflag] at hok
    rw [established, hflag]
    by_cases hstat : fs.statOk p
    · rw [if_pos hstat] at hok
      obtain rfl : fs = fs2 := Except.ok.inj hok
      exact hstat
    · rw [if_neg hstat] at hok
      rw [createFileFromTar] at hok
      by_cases hpar : fs.isDirPath p.dropLast
      · rw [if_pos hpar] at hok
        obtain rfl : ({ fs with files := (p, ct) :: fs.files } : FS) = fs2 :=
          Except.ok.inj hok
        simp [FS.statOk, findFile]
      · rw [if_neg hpar] at hok
        exact absurd hok (by simp)
  | typeOther fl =>
    rw [handleTarEntry, hflag] at hok
    exact absurd hok (by simp)

theorem established_extract_mono {h : TarHeader} {p : TarPath}
    {fs fs2 : FS} {entries : List TarEntry} {dest : TarPath}
    (hest : established h p fs)
    (hok : extractTarGz fs entries dest = .ok fs2) :
    established h p fs2 := by
  obtain ⟨hd, _, hs⟩ := extractTarGz_mono hok
  cases hflag : h.typeflag with
  | typeDir =>
    rw [established, hflag] at hest ⊢
    exact fun q hq => hd q (hest q hq)
  | typeReg =>
    rw [established, hflag] at hest ⊢
    exact hs p hest
  | typeOther fl =>
    rw [established, hflag] at hest
    exact absurd hest (by simp)

theorem handleTarEntry_stable {fs : FS} {h : TarHeader} {ct : String}
    {p : TarPath} (hest : established h p fs) :
    handleTarEntry fs h ct p = .ok fs := by
  cases hflag : h.typeflag with
  | typeDir =>
    rw [established, hflag] at hest
    rw [handleTarEntry, hflag]
    have hfilter : (tarPrefixes p).filter (fun q => !decide (q ∈ fs.dirs)) =
        [] := by
      rw [List.filter_eq_nil_iff]
      intro q hq
      simp [hest q hq]
    rw [FS.mkdirAll, hfilter, List.append_nil]
  | typeReg =>
    rw [established, hflag] at hest
    rw [handleTarEntry, hflag, if_pos hest]
  | typeOther fl =>
    rw [established, hflag] at hest
    exact absurd hest (by simp)

theorem extractTarGz_establishes {entries : List TarEntry} :
    ∀ {fs fs1 : FS} {dest : TarPath},
      extractTarGz fs entries dest = .ok fs1 →
      ∀ e ∈ entries, established e.header (dest ++ e.header.name) fs1 := by
  induction entries with
  | nil => intro fs fs1 dest _ e he; exact absurd he (List.not_mem_nil e)
  | cons e0 rest ih =>
    intro fs fs1 dest hok e he
    rw [extractTarGz] at hok
    cases hhead : handleTarEntry fs e0.header e0.content
        (dest ++ e0.header.name) with
    | error err => rw [hhead] at hok; exact absurd hok (by simp)
    | ok fsm =>
      rw [hhead] at hok
      rcases List.mem_cons.mp he with rfl | hrest
      · exact established_extract_mono (handleTarEntry_establishes hhead) hok
      · exact ih hok e hrest

theorem extractTarGz_idem {entries : List TarEntry} :
    ∀ {fs1 : FS} {dest : TarPath},
      (∀ e ∈ entries, established e.header (dest ++ e.header.name) fs1) →
      extractTarGz fs1 entries dest = .ok fs1 := by
  induction entries with
  | nil => intro fs1 dest _; rfl
  | cons e0 rest ih =>
    intro fs1 dest hest
    rw [extractTarGz]
    rw [handleTarEntry_stable (hest e0 (List.mem_cons_self e0 rest))]
    exact ih (fun e he => hest e (List.mem_cons_of_mem e0 he))

/-- C3: tar extraction is idempotent and additive.  (1) A regular-file entry
whose destination already holds a file is skipped, leaving the filesystem
unchanged; (2) a directory entry creates the directory and all its ancestors;
(3) any other entry type fails that blob's extraction; hence (4) after a
successful extraction, re-extracting the same decoded archive into the same
destination succeeds and changes nothing, and every regular file present
before the first extraction keeps its exact content through both. -/
theorem C3_idempotent_extraction :
    (∀ (fs : FS) (h : TarHeader) (ct : String) (p : TarPath) (c : String),
      h.typeflag = .typeReg → findFile fs.files p = some c →
      handleTarEntry fs h ct p = .ok fs) ∧
    (∀ (fs : FS) (h : TarHeader) (ct : String) (p : TarPath),
      h.typeflag = .typeDir →
      handleTarEntry fs h ct p = .ok (fs.mkdirAll p) ∧
        ∀ q ∈ tarPrefixes p, q ∈ (fs.mkdirAll p).dirs) ∧
    (∀ (fs : FS) (h : TarHeader) (ct : String) (p : TarPath) (fl : Char),
      h.typeflag = .typeOther fl →
      handleTarEntry fs h ct p = .error "unsupported tar entry") ∧
    (∀ (entries : List TarEntry) (dest : TarPath) (fs fs1 : FS),
      extractTarGz fs entries dest = .ok fs1 →
      extractTarGz fs1 entries dest = .ok fs1 ∧
        ∀ p c, findFile fs.files p = some c →
          findFile fs1.files p = some c) := by
  refine ⟨?_, ?_, ?_, ?_⟩
  · intro fs h ct p c hflag hfile
    rw [handleTarEntry, hflag,
      if_pos (by simp [FS.statOk, hfile] : fs.statOk p = true)]
  · intro fs h ct p hflag
    refine ⟨by rw [handleTarEntry, hflag], ?_⟩
    intro q hq
    rw [FS.mkdirAll]
    by_cases hmem : q ∈ fs.dirs
    · exact List.mem_append_left _ hmem
    · exact List.mem_append_right _
        (List.mem_filter.mpr ⟨hq, by simp [hmem]⟩)
  · intro fs h ct p fl hflag
    rw [handleTarEntry, hflag]
  · intro entries dest fs fs1 hok
    refine ⟨extractTarGz_idem (extractTarGz_establishes hok), ?_⟩
    exact fun p c hc => (extractTarGz_mono hok).2.1 p c hc

/-- A decoded archive: one directory, one file inside it, and one file at a
path that already exists (and so will be skipped). -/
def archiveExample : List TarEntry :=
  [⟨⟨["logs"], .typeDir⟩, ""⟩,
   ⟨⟨["logs", "e2e.log"], .typeReg⟩, "run ok"⟩,
   ⟨⟨["report.xml"], .typeReg⟩, "clobber"⟩]

/-- The destination before extraction: `report.xml` already exists. -/
def fsBefore : FS := ⟨[], [(["report.xml"], "old-content")]⟩

/-- The destination after extracting `archiveExample` into `fsBefore`. -/
def fsAfter : FS :=
  ⟨[["logs"]],
   [(["logs", "e2e.log"], "run ok"), (["report.xml"], "old-content")]⟩

theorem C3_idempotent_extraction_witness :
    extractTarGz fsAfter archiveExample [] = .ok fsAfter ∧
    findFile fsAfter.files ["report.xml"] = some "old-content" := by
  have h := C3_idempotent_extraction.2.2.2 archiveExample [] fsBefore fsAfter
    (by decide)
  exact ⟨h.1, h.2 ["report.xml"] "old-content" (by decide)⟩

/-! ## ArtifactScanner (`processExtractedFiles`, `isRequiredFile`,
`initArtifactsFilesPathMap`)

From `pkg/oci/artifact_scanner.go`.  `filepath.Walk` visits every directory
and file under the artifact directory in order; the visit sequence is the
input list.  `isRequiredFile` tests the visited path against every
configured filter with `regexp.MustCompile(s).MatchString(filePath)` —
regular-expression matching is the Go `regexp` package, taken as the
abstract environment `rexMatch : pattern → path → Bool`.
`initArtifactsFilesPathMap` opens the path and reads it fully (`io.ReadAll`
fails with `is a directory` when the matched path is a directory), then
stores `Artifact` with the file content and the bare `info.Name()` under
the full path; a read failure aborts the whole walk. -/

/-- `Artifact` from `pkg/oci/types.go`: file content plus bare filename. -/
structure Artifact where
  Content : String
  Filename : String
deriving DecidableEq

/-- One visit of `filepath.Walk`: the full path, `info.Name()`, whether it
is a directory, and (for regular files) its content. -/
structure WalkEntry where
  path : String
  name : String
  isDir : Bool
  content : String
deriving DecidableEq

/-- `isRequiredFile` from the source: `slices.ContainsFunc` over the
configured filters — the patterns are independent and OR'd. -/
def isRequiredFile (rexMatch : String → String → Bool)
    (filters : List String) (filePath : String) : Bool :=
  filters.any (fun s => rexMatch s filePath)

/-- `initArtifactsFilesPathMap` from the source, as the value it adds to the
map: `os.Open` + `io.ReadAll` succeed on a regular file and fail on a
directory. -/
def initArtifactsFilesPathMap (entry : WalkEntry) : Except String Artifact :=
  if entry.isDir then .error ("read " ++ entry.path ++ ": is a directory")
  else .ok ⟨entry.content, entry.name⟩

/-- `processExtractedFiles` from the source: walk the visit sequence; for a
path passing `isRequiredFile`, read it and record it in the index keyed by
its full path; a read failure aborts the walk with that error. -/
def processExtractedFiles (rexMatch : String → String → Bool)
    (filters : List String) :
    List WalkEntry → Except String (List (String × Artifact))
  | [] => .ok []
  | entry :: rest =>
    if isRequiredFile rexMatch filters entry.path then
      match initArtifactsFilesPathMap entry with
      | .error e => .error e
      | .ok a =>
        match processExtractedFiles rexMatch filters rest with
        | .error e => .error e
        | .ok m => .ok ((entry.path, a) :: m)
    else processExtractedFiles rexMatch filters rest

theorem processExtractedFiles_spec (rexMatch : String → String → Bool)
    (filters : List String) :
    ∀ entries : List WalkEntry,
      (∀ e ∈ entries, e.isDir = true →
        isRequiredFile rexMatch filters e.path = false) →
      processExtractedFiles rexMatch filters entries =
        .ok ((entries.filter (fun e =>
            !e.isDir && isRequiredFile rexMatch filters e.path)).map
          (fun e => (e.path, ⟨e.content, e.name⟩))) := by
  intro entries
  induction entries with
  | nil => intro _; rfl
  | cons entry rest ih =>
    intro hdirs
    have hrest := ih (fun e he h => hdirs e (List.mem_cons_of_mem entry he) h)
    by_cases hreq : isRequiredFile rexMatch filters entry.path
    · have hnd : entry.isDir = false := by
        cases hd : entry.isDir with
        | false => rfl
        | true => exact absurd hreq (by simp [hdirs entry
            (List.mem_cons_self entry rest) hd])
      rw [processExtractedFiles, if_pos hreq, initArtifactsFilesPathMap,
        if_neg (by simp [hnd]), hrest]
      simp [List.filter_cons, hnd, hreq]
    · rw [processExtractedFiles, if_neg hreq, hrest]
      have hfalse : (!entry.isDir &&
          isRequiredFile rexMatch filters entry.path) = false := by
        simp [hreq]
      simp [List.filter_cons, hfalse]

/-- The walk sequence of the claim's concrete tree: the root directory,
`suite1`, the report file with content `<ok/>`, and an unrelated text
file. -/
def suiteWalk : List WalkEntry :=
  [⟨"root", "root", true, ""⟩,
   ⟨"root/suite1", "suite1", true, ""⟩,
   ⟨"root/suite1/e2e-report.xml", "e2e-report.xml", false, "<ok/>"⟩,
   ⟨"root/suite1/notes.txt", "notes.txt", false, "irrelevant"⟩]

/-- C8: provided no visited directory path rexMatch a filter, the scan
succeeds and its index holds exactly the regular files whose path rexMatch at
least one of the OR'd patterns, each keyed by its full path and carrying the
bare filename and the complete file content; instantiated at the claim's
concrete tree — `suite1/e2e-report.xml` with content `<ok/>` next to
`suite1/notes.txt`, scanned with the single pattern matching paths ending in
`e2e-report.xml` — the index has exactly that one entry. -/
theorem C8_scan_index :
    (∀ (rexMatch : String → String → Bool) (filters : List String)
       (entries : List WalkEntry),
      (∀ e ∈ entries, e.isDir = true →
        isRequiredFile rexMatch filters e.path = false) →
      processExtractedFiles rexMatch filters entries =
        .ok ((entries.filter (fun e =>
            !e.isDir && isRequiredFile rexMatch filters e.path)).map
          (fun e => (e.path, ⟨e.content, e.name⟩)))) ∧
    (∀ rexMatch : String → String → Bool,
      (∀ p, rexMatch "e2e-report\\.xml$" p = hasSuffix p "e2e-report.xml") →
      processExtractedFiles rexMatch ["e2e-report\\.xml$"] suiteWalk =
        .ok [("root/suite1/e2e-report.xml",
          ⟨"<ok/>", "e2e-report.xml"⟩)]) := by
  refine ⟨processExtractedFiles_spec, ?_⟩
  intro rexMatch hm
  have hdirs : ∀ e ∈ suiteWalk, e.isDir = true →
      isRequiredFile rexMatch ["e2e-report\\.xml$"] e.path = false := by
    intro e he hd
    fin_cases he
    · simp only [isRequiredFile, List.any_cons, List.any_nil, hm,
        Bool.or_false]
      decide
    · simp only [isRequiredFile, List.any_cons, List.any_nil, hm,
        Bool.or_false]
      decide
    · exact absurd hd (by decide)
    · exact absurd hd (by decide)
  rw [processExtractedFiles_spec rexMatch ["e2e-report\\.xml$"]
    suiteWalk hdirs]
  simp only [suiteWalk, isRequiredFile, List.filter_cons, List.filter_nil,
    List.any_cons, List.any_nil, hm, Bool.or_false]
  decide

/-- A matcher implementing the single pattern of the claim's concrete
instance as the Go regexp engine would: the anchored pattern holds exactly
for paths ending in `e2e-report.xml`. -/
def matchesSuffixImpl : String → String → Bool := fun _ p =>
  hasSuffix p "e2e-report.xml"

theorem C8_scan_index_witness :
    processExtractedFiles matchesSuffixImpl ["e2e-report\\.xml$"]
      suiteWalk =
      .ok [("root/suite1/e2e-report.xml", ⟨"<ok/>", "e2e-report.xml"⟩)] :=
  C8_scan_index.2 matchesSuffixImpl (fun _ => rfl)

end QeTools
